import Mathlib

/-!
Verification of the sourceloupe rule-evaluation engine (`src/core/ScanManager.ts`).

The engine is embedded shallowly: the tree-sitter collaborators (parser, language,
`TreeSitter.Query`) are modelled at their interface boundary, as a function from a
query text and a scope node to an ordered capture list or a query error; the
per-rule loop body of `commonScan` and the `dump` playground are translated
directly from the TypeScript source.  All rule callbacks are pure functions of
their node arguments, matching the interface the specification gives them.
Invocations of the side-effecting `measureNodes` callback are made observable as
an event log returned next to the finding list, and the in-place assignment to
`rule.Priority` (ScanManager.ts line 85) is made observable by returning the
post-scan rule list next to the findings.
-/

deriving instance DecidableEq for Except

/-- Substring test on character lists: true when `pat` occurs contiguously in the list. -/
def occursIn (pat : List Char) : List Char → Bool
  | [] => pat.isEmpty
  | c :: rest => pat.isPrefixOf (c :: rest) || occursIn pat rest

/-- Model of the JavaScript `String.prototype.includes`: `strIncludes s pat` is true
when `pat` occurs as a contiguous substring of `s`. -/
def strIncludes (s pat : String) : Bool :=
  occursIn pat.toList s.toList

/-- A syntax-tree node as the external Syntax Tree Provider (tree-sitter) exposes it
to the engine: start and end byte offsets and the covered text. -/
structure SyntaxNode where
  startIndex : Nat
  endIndex : Nat
  text : String
deriving DecidableEq

/-- A named capture produced by executing a tree-sitter query: the capture label and
the matched node. -/
structure QueryCapture where
  name : String
  node : SyntaxNode
deriving DecidableEq

/-- A finding produced by a rule validator (the `ScanResult` of the external
sourceloupe-types package).  The engine never inspects its contents, so it is
modelled as an opaque labelled record. -/
structure ScanResult where
  label : String
deriving DecidableEq

namespace ResultType

/-- Modelled from the spec: `ResultType` is the severity enumeration of the external
sourceloupe-types package, which is not part of this repository; `VIOLATION` is its
maximum severity level.  The concrete numeral is immaterial to every theorem below. -/
def VIOLATION : Nat := 3

end ResultType

/-- A scan rule as `commonScan` consumes it, restricted to the fields the engine
reads.  `RegEx = none` stands for an undefined `RegEx` field; `Context = none` for
an undefined `Context` field; `preFilter = none` for a rule that does not override
the default pre-filter.  The callbacks `validateNodes` and `validateNode` are pure
functions of their node arguments (spec section 6 gives them those shapes).  The
`measureNodes` callback is not carried as data: its invocations are recorded in the
event log the evaluation returns. -/
structure ScanRule where
  Name : String
  Priority : Nat
  Query : String
  RegEx : Option String
  Context : Option String
  preFilter : Option (SyntaxNode → SyntaxNode)
  validateNodes : List SyntaxNode → List ScanResult
  validateNode : SyntaxNode → List ScanResult

/-- Modelled from the spec: the default pre-filter of the external sourceloupe-types
rule base class is the identity function; a rule with `preFilter = none` therefore
scopes its query at the unchanged tree root. -/
def ScanRule.effPreFilter (r : ScanRule) : SyntaxNode → SyntaxNode :=
  r.preFilter.getD id

/-- The engine state fixed at construction (ScanManager.ts lines 22 to 29): the
tree-sitter language, the root node of the tree parsed from the source, the source
text, and the rule list.  `tsLanguage` models the combined behaviour of
`new TreeSitter.Query(language, text)` followed by `.captures(scope)`: from a
query text and a scope node it yields the ordered capture list, or a query
compile/execute error. -/
structure ScanManager where
  tsLanguage : String → SyntaxNode → Except String (List QueryCapture)
  rootNode : SyntaxNode
  sourceCodeToScan : String
  scannerRules : List ScanRule

/-- Severity normalization at ScanManager.ts line 85:
`rule.Priority > ResultType.VIOLATION ? ResultType.VIOLATION : rule.Priority`. -/
def clampPriority (p : Nat) : Nat :=
  if p > ResultType.VIOLATION then ResultType.VIOLATION else p

/-- The effect of line 85 on the rule object: the Priority field is overwritten with
its clamped value and every other field is untouched. -/
def clampRule (r : ScanRule) : ScanRule :=
  { r with Priority := clampPriority r.Priority }

/-- Query text composition at ScanManager.ts line 86: the template literal appends
the `#match?` fragment exactly when `rule.RegEx` is truthy; in JavaScript both an
undefined field and the empty string are falsy and append nothing. -/
def composeQueryText (r : ScanRule) : String :=
  r.Query ++ (match r.RegEx with
    | some s => if s = "" then "" else "(#match? @exp \"" ++ s ++ "\")"
    | none => "")

/-- One recorded invocation of a rule `measureNodes` callback: the rule name and the
node list it was handed. -/
abbrev MeasureEvent := String × List SyntaxNode

/-- What one iteration of the `commonScan` loop produces: the findings appended for
this rule, the `measureNodes` invocations it performed, and the rule object as the
iteration leaves it (the Priority assignment at line 85 writes through to the
shared rule array). -/
structure RuleOutcome where
  findings : List ScanResult
  measureCalls : List MeasureEvent
  ruleAfter : ScanRule

/-- One iteration of the `commonScan` loop (ScanManager.ts lines 81 to 115): clamp
the rule Priority in place, compose the query text, then inside the try block
pre-filter the root, compile and execute the query, collect the captured nodes,
invoke `measureNodes` when the effective context contains `"measure"`, append the
`validateNodes` results and then the per-node `validateNode` results.  A caught
tree-sitter error ends the iteration with zero findings. -/
def evalRule (m : ScanManager) (rule0 : ScanRule) : RuleOutcome :=
  let rule := clampRule rule0
  let queryText := composeQueryText rule
  match m.tsLanguage queryText (rule.effPreFilter m.rootNode) with
  | Except.error _ => ⟨[], [], rule⟩
  | Except.ok captures =>
      let capturedNodes := captures.map QueryCapture.node
      let ruleContext := rule.Context.getD "scan"
      let measureCalls :=
        if strIncludes ruleContext "measure" then [(rule.Name, capturedNodes)] else []
      ⟨rule.validateNodes capturedNodes ++ capturedNodes.flatMap rule.validateNode,
       measureCalls, rule⟩

/-- The scrutinee of the try block of one `commonScan` iteration: the composed query
of the clamped rule, compiled and executed over the pre-filtered root. -/
def ruleQueryCaptures (m : ScanManager) (r : ScanRule) : Except String (List QueryCapture) :=
  let rule := clampRule r
  m.tsLanguage (composeQueryText rule) (rule.effPreFilter m.rootNode)

/-- The query of rule `r` fails to compile or execute against engine `m`. -/
def ruleFails (m : ScanManager) (r : ScanRule) : Prop :=
  ∃ e, ruleQueryCaptures m r = Except.error e

/-- ScanManager.ts `commonScan` (lines 76 to 117): iterate the rules in order,
appending each rule contribution to one result list.  The returned triple is the
finding list, the log of `measureNodes` invocations in order, and the rule array
contents after the call (each rule with its Priority clamped in place). -/
def ScanManager.commonScan (m : ScanManager) : List ScanResult × List MeasureEvent × List ScanRule :=
  let outcomes := m.scannerRules.map (evalRule m)
  ((outcomes.map RuleOutcome.findings).flatten,
   (outcomes.map RuleOutcome.measureCalls).flatten,
   outcomes.map RuleOutcome.ruleAfter)

/-- ScanManager.ts `scan` (lines 65 to 67): delegates to `commonScan` with no
argument. -/
def ScanManager.scan (m : ScanManager) : List ScanResult × List MeasureEvent × List ScanRule :=
  m.commonScan

/-- ScanManager.ts `measure` (lines 55 to 57): delegates to `commonScan` with no
argument, exactly as `scan` does. -/
def ScanManager.measure (m : ScanManager) : List ScanResult × List MeasureEvent × List ScanRule :=
  m.commonScan

/-- The engine state once one `scan()` or `measure()` call returns: the tree, the
source and the language are untouched; the shared rule array holds the rules as the
loop left them. -/
def ScanManager.afterScan (m : ScanManager) : ScanManager :=
  { m with scannerRules := m.commonScan.2.2 }

/-- JSON string escaping for the two characters that need it in this development,
backslash and double quote, as `JSON.stringify` escapes them. -/
def jsonEscape (s : String) : String :=
  String.mk (s.toList.flatMap fun c =>
    if c = '\\' ∨ c = '"' then ['\\', c] else [c])

/-- A JSON string literal. -/
def jsonStr (s : String) : String :=
  "\"" ++ jsonEscape s ++ "\""

/-- Model of `JSON.stringify` on an array of strings. -/
def jsonStringifyStrings (l : List String) : String :=
  "[" ++ String.intercalate "," (l.map jsonStr) ++ "]"

/-- ScanManager.ts `dump` (lines 37 to 49): an empty query string is replaced by the
canned `(class_declaration @decl)` pattern; the query is compiled and executed over
the whole tree root; each capture contributes the string `@name=text`; the list is
JSON-serialized.  Nothing catches a query error on this path, so the result is an
`Except`. -/
def ScanManager.dump (m : ScanManager) (queryString : String) : Except String String :=
  let q := if queryString = "" then "(class_declaration @decl)" else queryString
  match m.tsLanguage q m.rootNode with
  | Except.error e => Except.error e
  | Except.ok globalCaptures =>
      Except.ok (jsonStringifyStrings (globalCaptures.map fun capture =>
        "@" ++ capture.name ++ "=" ++ capture.node.text))

/-- The JavaScript `String.prototype.substring(a, b)` on our character model. -/
def substringRange (s : String) (a b : Nat) : String :=
  String.mk ((s.toList.drop a).take (b - a))

/-- The dump record of the compiled variant (ScanManager.js lines 100 to 106) and of
spec section 4.5: source fragment between the node offsets, start offset, end
offset. -/
structure DumpResult where
  SourceFragment : String
  StartIndex : Nat
  EndIndex : Nat
deriving DecidableEq

/-- Constructor of `DumpResult` from a node and the source text, as in
ScanManager.js lines 101 to 105. -/
def DumpResult.ofNode (node : SyntaxNode) (source : String) : DumpResult :=
  ⟨substringRange source node.startIndex node.endIndex, node.startIndex, node.endIndex⟩

/-- Modelled from the spec, section 4.5: the record list the specification says
`dump` serializes — for each capture of the query executed over the whole tree
root, the source fragment between the node offsets together with both offsets. -/
def dumpRecordsSpec (m : ScanManager) (queryString : String) : Except String (List DumpResult) :=
  let q := if queryString = "" then "(class_declaration @decl)" else queryString
  (m.tsLanguage q m.rootNode).map fun captures =>
    captures.map fun capture => DumpResult.ofNode capture.node m.sourceCodeToScan

/-- The per-rule finding contribution as spec sections 4.2 and 4.3 describe it: a
failing rule contributes nothing; a successful rule contributes its bulk
`validateNodes` results followed by the per-node `validateNode` results in capture
order. -/
def ruleFindingsSpec (m : ScanManager) (r : ScanRule) : List ScanResult :=
  match ruleQueryCaptures m r with
  | Except.error _ => []
  | Except.ok caps =>
      r.validateNodes (caps.map QueryCapture.node)
        ++ (caps.map QueryCapture.node).flatMap r.validateNode

/-- The per-rule measurement log as the amended claim C3 describes it: one
`measureNodes` invocation exactly when the query succeeded and the effective
context (defaulting to `"scan"`) contains `"measure"`. -/
def ruleMeasureCallsSpec (m : ScanManager) (r : ScanRule) : List MeasureEvent :=
  match ruleQueryCaptures m r with
  | Except.error _ => []
  | Except.ok caps =>
      if strIncludes (r.Context.getD "scan") "measure"
      then [(r.Name, caps.map QueryCapture.node)] else []

/-! ## Shared lemmas about the embedding -/

lemma clampPriority_eq_min (p : Nat) : clampPriority p = min p ResultType.VIOLATION := by
  unfold clampPriority
  split <;> omega

lemma clampPriority_idem (p : Nat) :
    clampPriority (clampPriority p) = clampPriority p := by
  simp only [clampPriority_eq_min]
  omega

lemma clampPriority_of_le (p : Nat) (h : p ≤ ResultType.VIOLATION) :
    clampPriority p = p := by
  simp only [clampPriority_eq_min]
  omega

lemma clampRule_idem (r : ScanRule) : clampRule (clampRule r) = clampRule r := by
  unfold clampRule
  simp [clampPriority_idem]

lemma clampRule_of_le (r : ScanRule) (h : r.Priority ≤ ResultType.VIOLATION) :
    clampRule r = r := by
  unfold clampRule
  simp [clampPriority_of_le r.Priority h]

lemma evalRule_asMatch (m : ScanManager) (r : ScanRule) :
    evalRule m r = (match ruleQueryCaptures m r with
      | Except.error _ => ⟨[], [], clampRule r⟩
      | Except.ok caps =>
          ⟨r.validateNodes (caps.map QueryCapture.node)
             ++ (caps.map QueryCapture.node).flatMap r.validateNode,
           if strIncludes (r.Context.getD "scan") "measure"
           then [(r.Name, caps.map QueryCapture.node)] else [],
           clampRule r⟩) := rfl

lemma evalRule_findings (m : ScanManager) (r : ScanRule) :
    (evalRule m r).findings = ruleFindingsSpec m r := by
  rw [evalRule_asMatch]
  unfold ruleFindingsSpec
  cases ruleQueryCaptures m r <;> rfl

lemma evalRule_measureCalls (m : ScanManager) (r : ScanRule) :
    (evalRule m r).measureCalls = ruleMeasureCallsSpec m r := by
  rw [evalRule_asMatch]
  unfold ruleMeasureCallsSpec
  cases ruleQueryCaptures m r <;> rfl

lemma evalRule_ruleAfter (m : ScanManager) (r : ScanRule) :
    (evalRule m r).ruleAfter = clampRule r := by
  rw [evalRule_asMatch]
  cases ruleQueryCaptures m r <;> rfl

lemma evalRule_clamped (m : ScanManager) (r : ScanRule) :
    evalRule m (clampRule r) = evalRule m r := by
  unfold evalRule
  rw [clampRule_idem]

lemma evalRule_rulesIndep (m : ScanManager) (l : List ScanRule) (r : ScanRule) :
    evalRule { m with scannerRules := l } r = evalRule m r := rfl

lemma commonScan_findings (m : ScanManager) :
    m.commonScan.1 = (m.scannerRules.map (ruleFindingsSpec m)).flatten := by
  simp only [ScanManager.commonScan, List.map_map]
  congr 1
  exact List.map_congr_left (fun r _ => evalRule_findings m r)

lemma commonScan_measureCalls (m : ScanManager) :
    m.commonScan.2.1 = (m.scannerRules.map (ruleMeasureCallsSpec m)).flatten := by
  simp only [ScanManager.commonScan, List.map_map]
  congr 1
  exact List.map_congr_left (fun r _ => evalRule_measureCalls m r)

lemma commonScan_rules (m : ScanManager) :
    m.commonScan.2.2 = m.scannerRules.map clampRule := by
  simp only [ScanManager.commonScan, List.map_map]
  exact List.map_congr_left (fun r _ => evalRule_ruleAfter m r)

lemma afterScan_eq (m : ScanManager) :
    m.afterScan = { m with scannerRules := m.scannerRules.map clampRule } := by
  unfold ScanManager.afterScan
  rw [commonScan_rules]

lemma afterScan_idem (m : ScanManager) : m.afterScan.afterScan = m.afterScan := by
  rw [afterScan_eq, afterScan_eq]
  have h : (m.scannerRules.map clampRule).map clampRule = m.scannerRules.map clampRule := by
    rw [List.map_map]
    exact List.map_congr_left (fun r _ => clampRule_idem r)
  show ({ m with scannerRules := (m.scannerRules.map clampRule).map clampRule } : ScanManager)
      = { m with scannerRules := m.scannerRules.map clampRule }
  rw [h]

lemma flatten_eq_nil_of_all {α : Type} (l : List (List α)) (h : ∀ x ∈ l, x = []) :
    l.flatten = [] := by
  induction l with
  | nil => rfl
  | cons a t ih =>
      have ha : a = [] := h a (by simp)
      have ht : t.flatten = [] := ih (fun x hx => h x (by simp [hx]))
      simp [ha, ht]

lemma ruleFindingsSpec_of_fails (m : ScanManager) (r : ScanRule) (h : ruleFails m r) :
    ruleFindingsSpec m r = [] := by
  obtain ⟨e, he⟩ := h
  unfold ruleFindingsSpec
  rw [he]

/-! ## Concrete fixtures used by counterexamples and witnesses -/

/-- A node covering the first two characters of the source `"abab"`. -/
def nodeAB : SyntaxNode := ⟨0, 2, "ab"⟩

/-- A node with the same text as `nodeAB` but covering the last two characters. -/
def nodeAB2 : SyntaxNode := ⟨2, 4, "ab"⟩

/-- The root node of the four-character source `"abab"`. -/
def rootABAB : SyntaxNode := ⟨0, 4, "abab"⟩

/-- A rule with no regex, no explicit context, no pre-filter, and validators that
return nothing. -/
def noopRule : ScanRule :=
  { Name := "Noop", Priority := 1, Query := "(q)", RegEx := none, Context := none,
    preFilter := none, validateNodes := fun _ => [], validateNode := fun _ => [] }

/-- An engine whose query engine rejects every query, holding two rules. -/
def failingManager : ScanManager :=
  { tsLanguage := fun _ _ => Except.error "query error", rootNode := rootABAB,
    sourceCodeToScan := "abab",
    scannerRules := [noopRule, { noopRule with Name := "Noop2", Priority := 5 }] }

/-- An engine whose query engine returns a single capture of `nodeAB` for every
query, holding one rule whose context is exactly `"measure"`. -/
def measureCtxManager : ScanManager :=
  { tsLanguage := fun _ _ => Except.ok [⟨"exp", nodeAB⟩], rootNode := rootABAB,
    sourceCodeToScan := "abab",
    scannerRules := [{ noopRule with Name := "MeasureOnly", Context := some "measure" }] }

/-! ## Claims -/

/-- C10: for every engine instance with pure validators, scan() and measure() return
identical results: both public operations delegate to the same commonScan pipeline
with no distinguishing argument, so they are observationally equal as functions of
the constructed state.  In this embedding every validator is a pure function, and
the equality is definitional. -/
theorem scanEqualsMeasurePipeline (m : ScanManager) : m.scan = m.measure := rfl

/-- C9: two consecutive scan() calls on the same constructed engine instance (same
tree, same rules, pure validators) return list-equal finding lists.  The first call
leaves the engine in state `afterScan` (its only trace is the in-place Priority
clamp), and a second scan from that state yields the same findings because the
clamp is idempotent and no other input changed. -/
theorem consecutiveScansListEqual (m : ScanManager) :
    m.afterScan.scan.1 = m.scan.1 := by
  show m.afterScan.commonScan.1 = m.commonScan.1
  rw [commonScan_findings, commonScan_findings, afterScan_eq]
  show ((m.scannerRules.map clampRule).map
      (ruleFindingsSpec { m with scannerRules := m.scannerRules.map clampRule })).flatten
    = (m.scannerRules.map (ruleFindingsSpec m)).flatten
  rw [List.map_map]
  exact congrArg List.flatten (List.map_congr_left (fun r _ => rfl))

/-- C2: for every rule, the effective severity applied during evaluation equals
`min(rule.Priority, maxSeverityLevel)`: a rule declaring a priority above VIOLATION
is silently clamped to it, never rejected, for all declared priorities.  The first
conjunct reads the priorities actually stored on the rules by a scan; the second
states the clamp for every rule individually. -/
theorem effectiveSeverityIsClampedMin (m : ScanManager) :
    m.scan.2.2.map ScanRule.Priority
      = m.scannerRules.map (fun r => min r.Priority ResultType.VIOLATION)
    ∧ ∀ r : ScanRule, ((evalRule m r).ruleAfter).Priority
      = min r.Priority ResultType.VIOLATION := by
  constructor
  · show m.commonScan.2.2.map ScanRule.Priority = _
    rw [commonScan_rules, List.map_map]
    refine List.map_congr_left (fun r _ => ?_)
    show clampPriority r.Priority = min r.Priority ResultType.VIOLATION
    exact clampPriority_eq_min r.Priority
  · intro r
    rw [evalRule_ruleAfter]
    exact clampPriority_eq_min r.Priority

/-- C4: the finding list returned by scan()/measure() is exactly the concatenation,
in rule-list order, of each successful rule's ValidateNodes results followed by its
per-node ValidateNode results in capture order; failing rules contribute nothing
and the core applies no deduplication or grouping. -/
theorem findingsAreOrderedConcat (m : ScanManager) :
    m.scan.1 = (m.scannerRules.map (ruleFindingsSpec m)).flatten
    ∧ m.measure.1 = (m.scannerRules.map (ruleFindingsSpec m)).flatten :=
  ⟨commonScan_findings m, commonScan_findings m⟩

/-- C3 counterexample: an engine holding a rule whose context is `"measure"` has
that rule `measureNodes` callback invoked during `scan()` — `commonScan` receives
no information about which public operation was requested, so the claimed
restriction to `measure()` runs fails, and the claimed absence of invocations
during `scan()` fails at this concrete input. -/
theorem measureInvokedDuringScanCex :
    measureCtxManager.scan.2.1 = [("MeasureOnly", [nodeAB])]
    ∧ measureCtxManager.scan.2.1 ≠ [] := by
  exact ⟨rfl, by decide⟩

/-- C3 amended: for every rule, the MeasureNodes callback is invoked if and only if
the rule query compiles and executes successfully and the rule effective context
(defaulting to scan when unset) contains `"measure"`; the gating is identical for
runs requested via scan() and via measure().  In particular a rule whose context
excludes measure never has MeasureNodes invoked in either operation. -/
theorem measureGatedByContextNotOperation (m : ScanManager) :
    m.scan.2.1 = m.measure.2.1
    ∧ m.scan.2.1 = (m.scannerRules.map (ruleMeasureCallsSpec m)).flatten :=
  ⟨rfl, commonScan_measureCalls m⟩

/-- C1: for every rule list (including the empty list), scan() and measure() return
an ordered finding list and never propagate a per-rule query compile/execute error:
a failing rule contributes zero findings, evaluation proceeds to the next rule, and
a run whose rules all fail still returns the empty list.  In this embedding both
operations are total functions into finding lists, so no exception can escape; the
conjuncts state the empty-rule case, the zero contribution of a failing rule, the
per-rule decomposition showing every rule is still reached, and the all-fail case. -/
theorem scanIsolatesRuleFailures (m : ScanManager) :
    (({ m with scannerRules := [] } : ScanManager).scan.1 = []
      ∧ ({ m with scannerRules := [] } : ScanManager).measure.1 = [])
    ∧ (∀ r : ScanRule, ruleFails m r → (evalRule m r).findings = [])
    ∧ m.scan.1 = (m.scannerRules.map (ruleFindingsSpec m)).flatten
    ∧ ((∀ r ∈ m.scannerRules, ruleFails m r) → m.scan.1 = [] ∧ m.measure.1 = []) := by
  refine ⟨⟨rfl, rfl⟩, ?_, commonScan_findings m, ?_⟩
  · intro r hr
    rw [evalRule_findings]
    exact ruleFindingsSpec_of_fails m r hr
  · intro h
    have hz : m.commonScan.1 = [] := by
      rw [commonScan_findings]
      refine flatten_eq_nil_of_all _ ?_
      intro x hx
      rw [List.mem_map] at hx
      obtain ⟨r, hr, hre⟩ := hx
      rw [← hre]
      exact ruleFindingsSpec_of_fails m r (h r hr)
    exact ⟨hz, hz⟩

/-- Witness for C1: on a concrete engine whose query engine rejects every query,
both public operations return the empty finding list. -/
theorem scanIsolatesRuleFailuresWitness :
    failingManager.scan.1 = [] ∧ failingManager.measure.1 = [] :=
  (scanIsolatesRuleFailures failingManager).2.2.2 (fun _ _ => ⟨"query error", rfl⟩)

/-- C5 counterexample: scan() does mutate a supplied rule.  On an engine holding a
rule with Priority 5 (above the maximum severity level 3), the rule array after the
call carries Priority 3 where the caller supplied 5 — line 85 of ScanManager.ts
assigns the clamped value back onto the shared rule object. -/
theorem scanMutatesRulePriorityCex :
    failingManager.scan.2.2.map ScanRule.Priority
      ≠ failingManager.scannerRules.map ScanRule.Priority
    ∧ failingManager.scan.2.2.map ScanRule.Priority = [1, 3]
    ∧ failingManager.scannerRules.map ScanRule.Priority = [1, 5] := by
  refine ⟨by decide, rfl, rfl⟩

/-- C5 amended: scan()/measure() never mutate the tree, the source text or the
query engine, and mutate each supplied rule only by clamping its Priority field in
place to min(Priority, VIOLATION); a rule whose Priority is already within range is
returned exactly as supplied, and a second call leaves the engine state fixed, so
the engine is idempotent (not fully stateless) across repeated calls. -/
theorem scanMutatesOnlyPriorityClamp (m : ScanManager) :
    m.afterScan.tsLanguage = m.tsLanguage
    ∧ m.afterScan.rootNode = m.rootNode
    ∧ m.afterScan.sourceCodeToScan = m.sourceCodeToScan
    ∧ m.afterScan.scannerRules = m.scannerRules.map clampRule
    ∧ (∀ r ∈ m.scannerRules, r.Priority ≤ ResultType.VIOLATION → clampRule r = r)
    ∧ m.afterScan.afterScan = m.afterScan := by
  refine ⟨?_, ?_, ?_, ?_, ?_, afterScan_idem m⟩
  · rw [afterScan_eq]
  · rw [afterScan_eq]
  · rw [afterScan_eq]
  · rw [afterScan_eq]
  · intro r _ hp
    exact clampRule_of_le r hp

/-- Witness for the amended C5: the in-range rule of the concrete failing engine is
returned untouched, and a second call on that engine changes nothing. -/
theorem scanMutatesOnlyPriorityClampWitness :
    clampRule noopRule = noopRule
    ∧ failingManager.afterScan.afterScan = failingManager.afterScan :=
  ⟨(scanMutatesOnlyPriorityClamp failingManager).2.2.2.2.1 noopRule
      (by simp [failingManager]) (by decide),
   (scanMutatesOnlyPriorityClamp failingManager).2.2.2.2.2⟩

/-- An engine for the dump playground whose query engine captures `nodeAB` (text
`"ab"` at offsets 0 to 2) for every query. -/
def dumpManagerA : ScanManager :=
  { tsLanguage := fun _ _ => Except.ok [⟨"exp", nodeAB⟩], rootNode := rootABAB,
    sourceCodeToScan := "abab", scannerRules := [] }

/-- Identical to `dumpManagerA` except that the captured node sits at offsets 2 to 4
of the same source, with the same text `"ab"`. -/
def dumpManagerB : ScanManager :=
  { tsLanguage := fun _ _ => Except.ok [⟨"exp", nodeAB2⟩], rootNode := rootABAB,
    sourceCodeToScan := "abab", scannerRules := [] }

/-- C6 counterexample: the value dump() returns is the serialized list of strings
`@name=text` and contains no offsets.  Concretely it equals the nine-character
JSON text of `@exp=ab` here, and two engines whose captures differ only in their
offsets produce identical dump() outputs even though the record lists the claim
describes (fragment, start offset, end offset) differ — so the returned value
cannot be a serialization of those records. -/
theorem dumpOmitsOffsetsCex :
    dumpManagerA.dump "(q)" = Except.ok "[\"@exp=ab\"]"
    ∧ dumpManagerA.dump "(q)" = dumpManagerB.dump "(q)"
    ∧ dumpRecordsSpec dumpManagerA "(q)" = Except.ok [⟨"ab", 0, 2⟩]
    ∧ dumpRecordsSpec dumpManagerB "(q)" = Except.ok [⟨"ab", 2, 4⟩]
    ∧ dumpRecordsSpec dumpManagerA "(q)" ≠ dumpRecordsSpec dumpManagerB "(q)" := by
  refine ⟨rfl, rfl, rfl, rfl, by decide⟩

/-- C6 amended: for every query string passed to dump(), when the query (the canned
class-declaration pattern if the string is empty) compiles and executes over the
whole tree root, the returned value is the JSON-serialized list containing, for
each capture in order, the string `@` + capture name + `=` + node text; offsets and
source fragments are not part of the output. -/
theorem dumpSerializesNameTextPairs (m : ScanManager) (q : String)
    (caps : List QueryCapture)
    (h : m.tsLanguage (if q = "" then "(class_declaration @decl)" else q) m.rootNode
          = Except.ok caps) :
    m.dump q = Except.ok (jsonStringifyStrings (caps.map fun c =>
      "@" ++ c.name ++ "=" ++ c.node.text)) := by
  simp only [ScanManager.dump]
  rw [h]

/-- Witness for the amended C6: on a concrete engine with one capture, dump()
returns the serialized singleton list. -/
theorem dumpSerializesNameTextPairsWitness :
    dumpManagerA.dump "(q)"
      = Except.ok (jsonStringifyStrings (([⟨"exp", nodeAB⟩] : List QueryCapture).map
        fun c => "@" ++ c.name ++ "=" ++ c.node.text)) :=
  dumpSerializesNameTextPairs dumpManagerA "(q)" [⟨"exp", nodeAB⟩] rfl

/-- A rule whose RegEx field holds the empty string. -/
def emptyRegexRule : ScanRule := { noopRule with Name := "EmptyRegex", RegEx := some "" }

/-- A rule carrying the trivial regex of the repository example registry. -/
def regexRule : ScanRule :=
  { noopRule with
    Name := "Trivial RegEx",
    Query := "(variable_declarator (identifier) @exp)",
    RegEx := some "foo_[a-zA-Z0-9]*" }

/-- C7 counterexample: a rule whose RegEx field is present but holds the empty
string composes to the bare base query — the JavaScript conditional at line 86
treats the empty string as falsy — contradicting the claim that the match
constraint is appended whenever RegEx is present. -/
theorem composeQueryEmptyRegexCex :
    emptyRegexRule.RegEx.isSome = true
    ∧ composeQueryText emptyRegexRule = "(q)"
    ∧ composeQueryText emptyRegexRule ≠ emptyRegexRule.Query ++ "(#match? @exp \"\")" := by
  refine ⟨rfl, rfl, by decide⟩

/-- C7 amended: the composed query text equals the base Query with the textual
match constraint bound to the `@exp` capture appended when RegEx is present and
non-empty, and equals the base Query unchanged when RegEx is absent or empty; the
composition performs no pattern-syntax validation (it is total on all strings). -/
theorem composeQueryRegexAppendRule :
    (∀ r : ScanRule, ∀ s : String, r.RegEx = some s → s ≠ "" →
        composeQueryText r = r.Query ++ ("(#match? @exp \"" ++ s ++ "\")"))
    ∧ (∀ r : ScanRule, r.RegEx = none → composeQueryText r = r.Query)
    ∧ (∀ r : ScanRule, r.RegEx = some "" → composeQueryText r = r.Query) := by
  refine ⟨?_, ?_, ?_⟩
  · intro r s hs hne
    unfold composeQueryText
    rw [hs]
    simp [hne]
  · intro r hn
    unfold composeQueryText
    rw [hn]
    simp
  · intro r hs
    unfold composeQueryText
    rw [hs]
    simp

/-- Witness for the amended C7: the repository example regex is appended to its
base query, while a missing and an empty RegEx leave the query unchanged. -/
theorem composeQueryRegexAppendRuleWitness :
    composeQueryText regexRule
      = "(variable_declarator (identifier) @exp)"
        ++ ("(#match? @exp \"" ++ "foo_[a-zA-Z0-9]*" ++ "\")")
    ∧ composeQueryText noopRule = noopRule.Query
    ∧ composeQueryText emptyRegexRule = emptyRegexRule.Query :=
  ⟨composeQueryRegexAppendRule.1 regexRule "foo_[a-zA-Z0-9]*" rfl (by decide),
   composeQueryRegexAppendRule.2.1 noopRule rfl,
   composeQueryRegexAppendRule.2.2 emptyRegexRule rfl⟩

/-- A rule whose bulk validator returns one finding and whose per-node validator
returns the node text as a finding. -/
def validatingRule : ScanRule :=
  { Name := "Length", Priority := 2, Query := "(q)", RegEx := none, Context := none,
    preFilter := none,
    validateNodes := fun _ => [⟨"bulk"⟩],
    validateNode := fun n => [⟨n.text⟩] }

/-- An engine whose query engine captures `nodeAB` for every query, holding the
validating rule. -/
def capturingManager : ScanManager :=
  { tsLanguage := fun _ _ => Except.ok [⟨"exp", nodeAB⟩], rootNode := rootABAB,
    sourceCodeToScan := "abab", scannerRules := [validatingRule] }

/-- C8: for every rule, the composed query is compiled and executed over the scope
root computed as the rule pre-filter applied to the tree root, with the identity
used when the rule supplies no pre-filter, and the resulting captures are consumed
in the order the query engine returns them (the findings below follow that order). -/
theorem queryRunsOverPreFilteredScope (m : ScanManager) :
    (∀ r : ScanRule, ∀ root : SyntaxNode, r.preFilter = none → r.effPreFilter root = root)
    ∧ (∀ r : ScanRule, ∀ f : SyntaxNode → SyntaxNode, ∀ root : SyntaxNode,
        r.preFilter = some f → r.effPreFilter root = f root)
    ∧ (∀ r : ScanRule, ruleQueryCaptures m r
        = m.tsLanguage (composeQueryText r) (r.effPreFilter m.rootNode))
    ∧ (∀ r : ScanRule, ∀ caps : List QueryCapture, ruleQueryCaptures m r = Except.ok caps →
        (evalRule m r).findings
          = r.validateNodes (caps.map QueryCapture.node)
            ++ (caps.map QueryCapture.node).flatMap r.validateNode) := by
  refine ⟨?_, ?_, fun r => rfl, ?_⟩
  · intro r root h
    unfold ScanRule.effPreFilter
    rw [h]
    rfl
  · intro r f root h
    unfold ScanRule.effPreFilter
    rw [h]
    rfl
  · intro r caps h
    rw [evalRule_findings]
    unfold ruleFindingsSpec
    rw [h]

/-- Witness for C8: on a concrete engine with one capture and a rule without a
pre-filter, the scope root is the tree root itself and the findings follow the
bulk-then-per-node shape over the captured node. -/
theorem queryRunsOverPreFilteredScopeWitness :
    validatingRule.effPreFilter rootABAB = rootABAB
    ∧ (evalRule capturingManager validatingRule).findings
        = validatingRule.validateNodes [nodeAB]
          ++ [nodeAB].flatMap validatingRule.validateNode :=
  ⟨(queryRunsOverPreFilteredScope capturingManager).1 validatingRule rootABAB rfl,
   (queryRunsOverPreFilteredScope capturingManager).2.2.2 validatingRule [⟨"exp", nodeAB⟩] rfl⟩
